import Mathlib

/-!
Shallow embedding of `lm_env2.py`: the `TextHistory` dialogue record and the
`TextEnvironment` turn-based interaction loop.  The external language model,
tokenizer and reward function are modelled as opaque (possibly failing)
service functions.  A Python method that both mutates `self` and may raise is
modelled as a function returning the mutated state together with an
`Except PyErr` result; a Python attribute that may be left unset
(`TextHistory.completed`) is modelled as an `Option Bool`.
-/

/-- Constant `obs_dim = 8`: the fixed observation width (module-level constant in the source). -/
def obs_dim : Nat := 8

/-- Python exceptions that the embedded code can raise. -/
inductive PyErr where
  | valueError
  | typeError
  deriving DecidableEq, Repr

/-- The dynamic value passed to `step` (the source calls `str(query)` on it). -/
inductive PyVal where
  | none
  | str (s : String)
  deriving DecidableEq, Repr

/-- Python's `str()` coercion on the values of `PyVal`: total, and `str(None) = "None"`. -/
def pyStr : PyVal → String
  | .none => "None"
  | .str s => s

/-- The `TextHistory` record: full text, per-segment character spans, token ids
(`none` models the Python attribute holding `None`), and the `completed` flag
(`none` models the attribute never having been assigned). -/
structure TextHistory where
  text : String
  text_spans : List (Nat × Nat)
  tokens : Option (List Int)
  completed : Option Bool
  deriving DecidableEq, Repr

/-- The token-window update of `append_segment`: concatenate, and if the result
is longer than `obs_dim` keep only the last `obs_dim` entries
(`self.tokens = self.tokens[-obs_dim:]`). -/
def truncatedCat (tk ts : List Int) : List Int :=
  if obs_dim < (tk ++ ts).length then (tk ++ ts).drop ((tk ++ ts).length - obs_dim)
  else tk ++ ts

/-- Method `TextHistory.append_segment(text, tokens)`: raises `ValueError` on empty
text or empty tokens (before any mutation), concatenates the text, records the
span `(old_length, new_length)`, and updates the token window.  `len(None)`
and `torch.cat` with a `None` operand raise `TypeError`; in the latter case
the text and spans have already been mutated, as in the source. -/
def TextHistory.append_segment (h : TextHistory) (text : String) (tokens : Option (List Int)) :
    TextHistory × Except PyErr Unit :=
  if text.length = 0 then (h, .error .valueError)
  else
    match tokens with
    | .none => (h, .error .typeError)
    | .some ts =>
      if ts.length = 0 then (h, .error .valueError)
      else
        match h.tokens with
        | .none =>
          ({ h with text := h.text ++ text,
                    text_spans := h.text_spans ++ [(h.text.length, (h.text ++ text).length)] },
           .error .typeError)
        | .some tk =>
          ({ h with text := h.text ++ text,
                    text_spans := h.text_spans ++ [(h.text.length, (h.text ++ text).length)],
                    tokens := some (truncatedCat tk ts) },
           .ok ())

/-- Constructor `TextHistory.__init__(text, tokens)`: with empty text it sets `text = ""`
and `tokens = []` and returns early, leaving `completed` unassigned; with
non-empty text it pre-assigns `self.text = text`, `self.tokens = tokens` and
`self.completed = False` and only then calls `append_segment(text, tokens)`. -/
def TextHistory.mk0 (text : String) (tokens : Option (List Int)) :
    TextHistory × Except PyErr Unit :=
  if text.length = 0 then
    ({ text := "", text_spans := [], tokens := some [], completed := Option.none }, .ok ())
  else
    TextHistory.append_segment
      { text := text, text_spans := [], tokens := tokens, completed := some false }
      text tokens

/-- The empty history produced by `TextHistory("", None)` (environment
construction and every reset). -/
def emptyHistory : TextHistory := (TextHistory.mk0 "" Option.none).1

/-- Auxiliary recursion for `setRange`, carrying the current position. -/
def setRangeAux (m : List Int) (i a b : Nat) (v : Int) : List Int :=
  match m with
  | [] => []
  | x :: xs => (if a ≤ i ∧ i < b then v else x) :: setRangeAux xs (i + 1) a b v

/-- Python slice assignment `mask[a:b] = v` on a list: positions `a ≤ j < b`
receive `v`; out-of-range positions are clamped away. -/
def setRange (m : List Int) (a b : Nat) (v : Int) : List Int :=
  setRangeAux m 0 a b v

/-- The span-marking loop of `to_obs`: the `i`-th span writes mask value 1 when
`i` is even (query role) and 2 when `i` is odd (response role). -/
def applyMask (m : List Int) (spans : List (Nat × Nat)) (i : Nat) : List Int :=
  match spans with
  | [] => m
  | sp :: rest => applyMask (setRange m sp.1 sp.2 (if i % 2 = 0 then 1 else 2)) rest (i + 1)

/-- Right-padding of the observation with the sentinel 0 up to `obs_dim`
(`torch.nn.functional.pad`); a longer list is returned unchanged. -/
def padObs (l : List Int) : List Int :=
  if l.length < obs_dim then l ++ List.replicate (obs_dim - l.length) 0 else l

/-- Method `TextHistory.to_obs()`: the padded token ids, and the role mask built from
the spans over a zero list of the same length (`torch.zeros_like(obs)`). -/
def TextHistory.to_obs (h : TextHistory) : List Int × List Int :=
  (padObs (h.tokens.getD []),
   applyMask (List.replicate (padObs (h.tokens.getD [])).length 0) h.text_spans 0)

/-- Opaque tokenizer service: `encode` models `tokenizer(text).input_ids[0]`,
`decode` models `tokenizer.decode`. -/
structure Tokenizer where
  encode : String → List Int
  decode : List Int → String

/-- The tuple returned by a successful `step`: observation, reward, done flag,
and the mask carried in the `info` dictionary. -/
structure StepResult where
  obs : List Int
  reward : Int
  done : Bool
  mask : List Int
  deriving DecidableEq, Repr

/-- The `TextEnvironment`: tokenizer, reward function (the language-model
argument of `reward_fn` is folded into the function), `max_turns`, the
generation service (`_generate` composed with the model and the configuration
bag), the turn counter and the owned history. -/
structure TextEnvironment where
  tokenizer : Tokenizer
  reward_fn : List Int → List Int → Except PyErr Int
  max_turns : Nat
  generator : List Int → Except PyErr (List Int)
  turn : Nat
  history : TextHistory

/-- Constructor `TextEnvironment.__init__`: fresh empty history, `turn = 0`. -/
def TextEnvironment.make (tok : Tokenizer) (rf : List Int → List Int → Except PyErr Int)
    (mt : Nat) (g : List Int → Except PyErr (List Int)) : TextEnvironment :=
  { tokenizer := tok, reward_fn := rf, max_turns := mt, generator := g,
    turn := 0, history := emptyHistory }

/-- Method `TextEnvironment.reset()`: replace the history with a fresh
`TextHistory("", None)`, set `turn = 0`, return `history.to_obs()`. -/
def TextEnvironment.reset (e : TextEnvironment) : TextEnvironment × (List Int × List Int) :=
  ({ e with history := emptyHistory, turn := 0 }, emptyHistory.to_obs)

/-- Method `TextEnvironment.generate()`: run the generation service on the whole token
history, decode the continuation, and append it to the history as a new
segment. -/
def TextEnvironment.generate (e : TextEnvironment) : TextEnvironment × Except PyErr (List Int) :=
  match e.history.tokens with
  | .none => (e, .error .typeError)
  | .some query_tensors =>
    match e.generator query_tensors with
    | .error err => (e, .error err)
    | .ok response_tensors =>
      ({ e with history :=
          (e.history.append_segment (e.tokenizer.decode response_tensors)
            (some response_tensors)).1 },
       (e.history.append_segment (e.tokenizer.decode response_tensors)
          (some response_tensors)).2.map fun _ => response_tensors)

/-- The tail of `step` after the query segment has been appended: generate and
append the response, compute the reward, increment `turn`, set
`history.completed = (turn >= max_turns)` and assemble the result tuple. -/
def TextEnvironment.stepTail (e : TextEnvironment) (query_tokens : List Int) :
    TextEnvironment × Except PyErr StepResult :=
  match e.generate with
  | (e2, .error err) => (e2, .error err)
  | (e2, .ok response_tokens) =>
    match e2.reward_fn query_tokens response_tokens with
    | .error err => (e2, .error err)
    | .ok rew =>
      ({ e2 with turn := e2.turn + 1,
                 history :=
                   { e2.history with
                     completed := some (decide (e2.max_turns ≤ e2.turn + 1)) } },
       .ok { obs := ({ e2.history with
                       completed := some (decide (e2.max_turns ≤ e2.turn + 1)) } :
                       TextHistory).to_obs.1,
             reward := rew,
             done := decide (e2.max_turns ≤ e2.turn + 1),
             mask := ({ e2.history with
                        completed := some (decide (e2.max_turns ≤ e2.turn + 1)) } :
                        TextHistory).to_obs.2 })

/-- Body of `TextEnvironment.step` after the `str()` coercion: tokenize the query and
either rebuild the history (when `history.tokens is None`) or append the query
segment, then run the generation/reward/turn tail. -/
def TextEnvironment.stepText (e : TextEnvironment) (query : String) :
    TextEnvironment × Except PyErr StepResult :=
  match e.history.tokens with
  | .none =>
    match (TextHistory.mk0 query (some (e.tokenizer.encode query))).2 with
    | .error err => (e, .error err)
    | .ok _ =>
      TextEnvironment.stepTail
        { e with history := (TextHistory.mk0 query (some (e.tokenizer.encode query))).1 }
        (e.tokenizer.encode query)
  | .some _ =>
    match (e.history.append_segment query (some (e.tokenizer.encode query))).2 with
    | .error err =>
      ({ e with history := (e.history.append_segment query (some (e.tokenizer.encode query))).1 },
       .error err)
    | .ok _ =>
      TextEnvironment.stepTail
        { e with history := (e.history.append_segment query (some (e.tokenizer.encode query))).1 }
        (e.tokenizer.encode query)

/-- Method `TextEnvironment.step(query)`: coerce the input with `str()` and proceed. -/
def TextEnvironment.step (e : TextEnvironment) (query : PyVal) :
    TextEnvironment × Except PyErr StepResult :=
  e.stepText (pyStr query)

/-- Relation holding when `n` successful `step` calls lead from `e` to the final environment. -/
inductive StepSeq : TextEnvironment → Nat → TextEnvironment → Prop where
  | nil (e : TextEnvironment) : StepSeq e 0 e
  | cons (e : TextEnvironment) (n : Nat) (e2 : TextEnvironment) (q : PyVal)
      (e3 : TextEnvironment) (r : StepResult)
      (hs : StepSeq e n e2) (hstep : e2.step q = (e3, Except.ok r)) : StepSeq e (n + 1) e3

/-- Histories reachable from the empty history by successful appends. -/
inductive ReachableHistory : TextHistory → Prop where
  | base : ReachableHistory emptyHistory
  | app {h h2 : TextHistory} (t : String) (ts : List Int)
      (hr : ReachableHistory h) (hok : h.append_segment t (some ts) = (h2, Except.ok ())) :
      ReachableHistory h2

/-- The spans form a gapless chain starting at `c`: each span is non-empty and
starts exactly where the previous one ended. -/
def SpanChain : Nat → List (Nat × Nat) → Prop
  | _, [] => True
  | c, sp :: rest => sp.1 = c ∧ sp.1 < sp.2 ∧ SpanChain sp.2 rest

/-- The end position of the last span of a chain that starts at `c`. -/
def chainEnd : Nat → List (Nat × Nat) → Nat
  | c, [] => c
  | _, sp :: rest => chainEnd sp.2 rest

/-- Index of the first span covering position `j`, if any. -/
def coverIdx (spans : List (Nat × Nat)) (j : Nat) : Option Nat :=
  match spans with
  | [] => Option.none
  | sp :: rest => if sp.1 ≤ j ∧ j < sp.2 then some 0 else (coverIdx rest j).map (· + 1)

/-- Stub tokenizer for the worked example: `"hi" ↦ [1, 2]`; decoding yields one
character per token. -/
def tokA : Tokenizer :=
  { encode := fun s => if s = "hi" then [1, 2] else List.replicate s.length 9,
    decode := fun ts => String.mk (ts.map fun _ => 'a') }

/-- Stub tokenizer encoding every string to one token per character. -/
def tokB : Tokenizer :=
  { encode := fun s => List.replicate s.length 7,
    decode := fun ts => String.mk (ts.map fun _ => 'a') }

/-- The worked-example environment: `W = 8`, `maxTurns = 3`, stub generator
returning `[3, 4, 5]` for any input. -/
def envA : TextEnvironment :=
  TextEnvironment.make tokA (fun _ _ => .ok 0) 3 (fun _ => .ok [3, 4, 5])

/-- Environment used to probe `step` with a null query (`max_turns = 4`, the default). -/
def envB : TextEnvironment :=
  TextEnvironment.make tokB (fun _ _ => .ok 0) 4 (fun _ => .ok [3, 4, 5])

/-- Environment whose generation service always fails. -/
def envF : TextEnvironment :=
  TextEnvironment.make tokB (fun _ _ => .ok 0) 4 (fun _ => .error .typeError)

/-- Environment already in the `Done` state at `turn = 0` (`max_turns = 0`). -/
def envD : TextEnvironment :=
  TextEnvironment.make tokB (fun _ _ => .ok 0) 0 (fun _ => .ok [3, 4, 5])

/-- The result of the worked-example step on `envA`. -/
def resA : StepResult :=
  { obs := [1, 2, 3, 4, 5, 0, 0, 0], reward := 0, done := false,
    mask := [1, 1, 2, 2, 2, 0, 0, 0] }

/-- The result of one step on the already-done environment `envD`. -/
def resD : StepResult :=
  { obs := [7, 7, 3, 4, 5, 0, 0, 0], reward := 0, done := true,
    mask := [1, 1, 2, 2, 2, 0, 0, 0] }

/-- The query-appended history reached inside `envF.step "hi"` before the
generation service fails. -/
def hF1 : TextHistory :=
  { text := "hi", text_spans := [(0, 2)], tokens := some [7, 7], completed := Option.none }

/-- A history with six tokens, used to exercise the truncation window. -/
def hW6 : TextHistory :=
  { text := "x", text_spans := [(0, 1)], tokens := some [1, 2, 3, 4, 5, 6],
    completed := some false }

deriving instance DecidableEq for Except

theorem truncatedCat_length_le (tk ts : List Int) : (truncatedCat tk ts).length ≤ obs_dim := by
  unfold truncatedCat
  split
  · rw [List.length_drop]
    omega
  · omega

theorem append_segment_empty (h : TextHistory) (t : String) (ts : List Int)
    (hd : t.length = 0 ∨ ts.length = 0) :
    h.append_segment t (some ts) = (h, Except.error PyErr.valueError) := by
  obtain ⟨tx, sp, tko, cp⟩ := h
  by_cases ht : t.length = 0
  · simp [TextHistory.append_segment, ht]
  · rcases hd with hd | hd
    · exact absurd hd ht
    · simp [TextHistory.append_segment, ht, hd]

theorem append_segment_ok_eq (h : TextHistory) (t : String) (ts tk : List Int)
    (htk : h.tokens = some tk) (ht : t.length ≠ 0) (hts : ts.length ≠ 0) :
    h.append_segment t (some ts) =
      ({ h with text := h.text ++ t,
                text_spans := h.text_spans ++ [(h.text.length, (h.text ++ t).length)],
                tokens := some (truncatedCat tk ts) },
       Except.ok ()) := by
  obtain ⟨tx, sp, tko, cp⟩ := h
  simp only at htk
  subst htk
  simp [TextHistory.append_segment, ht, hts]

theorem append_segment_none_tokens (h : TextHistory) (t : String) (ts : List Int)
    (htk : h.tokens = Option.none) (ht : t.length ≠ 0) (hts : ts.length ≠ 0) :
    (h.append_segment t (some ts)).2 = Except.error PyErr.typeError := by
  obtain ⟨tx, sp, tko, cp⟩ := h
  simp only at htk
  subst htk
  simp [TextHistory.append_segment, ht, hts]

theorem append_segment_ok_inv (h h2 : TextHistory) (t : String) (ts : List Int)
    (hok : h.append_segment t (some ts) = (h2, Except.ok ())) :
    t.length ≠ 0 ∧ ts.length ≠ 0 ∧
    ∃ tk, h.tokens = some tk ∧
      h2 = { h with text := h.text ++ t,
                    text_spans := h.text_spans ++ [(h.text.length, (h.text ++ t).length)],
                    tokens := some (truncatedCat tk ts) } := by
  by_cases ht : t.length = 0
  · rw [append_segment_empty h t ts (Or.inl ht)] at hok
    simp at hok
  · by_cases hts : ts.length = 0
    · rw [append_segment_empty h t ts (Or.inr hts)] at hok
      simp at hok
    · rcases htk : h.tokens with _ | tk
      · have := append_segment_none_tokens h t ts htk ht hts
        rw [hok] at this
        simp at this
      · rw [append_segment_ok_eq h t ts tk htk ht hts] at hok
        simp only [Prod.mk.injEq] at hok
        exact ⟨ht, hts, tk, rfl, hok.1.symm⟩

theorem generate_turn (e : TextEnvironment) :
    (e.generate).1.turn = e.turn ∧ (e.generate).1.max_turns = e.max_turns ∧
    (e.generate).1.generator = e.generator ∧ (e.generate).1.tokenizer = e.tokenizer ∧
    (e.generate).1.reward_fn = e.reward_fn := by
  unfold TextEnvironment.generate
  rcases htk : e.history.tokens with _ | qt
  · exact ⟨rfl, rfl, rfl, rfl, rfl⟩
  · dsimp only
    rcases hg : e.generator qt with err | rt
    · exact ⟨rfl, rfl, rfl, rfl, rfl⟩
    · exact ⟨rfl, rfl, rfl, rfl, rfl⟩

theorem generate_ok_history (e : TextEnvironment) (rtk : List Int)
    (hg : (e.generate).2 = Except.ok rtk) :
    ∃ qt, e.history.tokens = some qt ∧ e.generator qt = Except.ok rtk ∧
      (e.generate).1.history =
        (e.history.append_segment (e.tokenizer.decode rtk) (some rtk)).1 ∧
      (e.history.append_segment (e.tokenizer.decode rtk) (some rtk)).2 = Except.ok () := by
  unfold TextEnvironment.generate at hg ⊢
  rcases htk : e.history.tokens with _ | qt
  · rw [htk] at hg
    simp at hg
  · rw [htk] at hg
    dsimp only at hg ⊢
    rcases hgen : e.generator qt with err | rt
    · rw [hgen] at hg
      simp at hg
    · rw [hgen] at hg
      dsimp only at hg ⊢
      rcases happ : (e.history.append_segment (e.tokenizer.decode rt) (some rt)).2 with err | u
      · rw [happ] at hg
        simp [Except.map] at hg
      · rw [happ] at hg
        simp only [Except.map] at hg
        cases hg
        exact ⟨qt, rfl, hgen, rfl, by cases u; exact happ⟩

theorem stepTail_ok (e : TextEnvironment) (qt : List Int) (r : StepResult)
    (hr : (e.stepTail qt).2 = Except.ok r) :
    (e.stepTail qt).1.turn = e.turn + 1 ∧
    (e.stepTail qt).1.max_turns = e.max_turns ∧
    r.done = decide (e.max_turns ≤ e.turn + 1) ∧
    (e.stepTail qt).1.history.text_spans = (e.generate).1.history.text_spans ∧
    ∃ rtk, (e.generate).2 = Except.ok rtk := by
  have ht2 := generate_turn e
  unfold TextEnvironment.stepTail at hr ⊢
  rcases hE : e.generate with ⟨e2, r2⟩
  rw [hE] at ht2 hr
  dsimp only at ht2
  cases r2 with
  | error err =>
    dsimp only at hr
    simp at hr
  | ok rtk =>
    dsimp only at hr ⊢
    rcases hR : e2.reward_fn qt rtk with err | rew
    · rw [hR] at hr
      simp at hr
    · rw [hR] at hr
      dsimp only at hr ⊢
      injection hr with hr2
      subst hr2
      refine ⟨?_, ?_, ?_, rfl, rtk, rfl⟩
      · rw [ht2.1]
      · exact ht2.2.1
      · dsimp only
        rw [ht2.1, ht2.2.1]

theorem stepTail_err (e : TextEnvironment) (qt : List Int) (err : PyErr)
    (hr : (e.stepTail qt).2 = Except.error err) :
    (e.stepTail qt).1.turn = e.turn ∧ (e.stepTail qt).1.max_turns = e.max_turns := by
  have ht2 := generate_turn e
  unfold TextEnvironment.stepTail at hr ⊢
  rcases hE : e.generate with ⟨e2, r2⟩
  rw [hE] at ht2 hr
  dsimp only at ht2
  cases r2 with
  | error e2err => exact ⟨ht2.1, ht2.2.1⟩
  | ok rtk =>
    dsimp only at hr ⊢
    rcases hR : e2.reward_fn qt rtk with rerr | rew
    · exact ⟨ht2.1, ht2.2.1⟩
    · rw [hR] at hr
      dsimp only at hr
      simp at hr

theorem stepText_turn_ok (e : TextEnvironment) (q : String) (r : StepResult)
    (hr : (e.stepText q).2 = Except.ok r) :
    (e.stepText q).1.turn = e.turn + 1 ∧
    (e.stepText q).1.max_turns = e.max_turns ∧
    r.done = decide (e.max_turns ≤ e.turn + 1) := by
  unfold TextEnvironment.stepText at hr ⊢
  rcases htk : e.history.tokens with _ | tk
  · rw [htk] at hr
    dsimp only at hr ⊢
    rcases hm : (TextHistory.mk0 q (some (e.tokenizer.encode q))).2 with err | u
    · rw [hm] at hr
      simp at hr
    · rw [hm] at hr
      dsimp only at hr ⊢
      exact stepTail_ok _ (e.tokenizer.encode q) r hr |>.imp id (fun h => h.imp id fun h2 => h2.1)
  · rw [htk] at hr
    dsimp only at hr ⊢
    rcases hm : (e.history.append_segment q (some (e.tokenizer.encode q))).2 with err | u
    · rw [hm] at hr
      simp at hr
    · rw [hm] at hr
      dsimp only at hr ⊢
      exact stepTail_ok _ (e.tokenizer.encode q) r hr |>.imp id (fun h => h.imp id fun h2 => h2.1)

theorem stepText_turn_err (e : TextEnvironment) (q : String) (err : PyErr)
    (hr : (e.stepText q).2 = Except.error err) :
    (e.stepText q).1.turn = e.turn := by
  unfold TextEnvironment.stepText at hr ⊢
  rcases htk : e.history.tokens with _ | tk
  · rw [htk] at hr
    dsimp only at hr ⊢
    rcases hm : (TextHistory.mk0 q (some (e.tokenizer.encode q))).2 with merr | u
    · rfl
    · rw [hm] at hr
      dsimp only at hr ⊢
      exact (stepTail_err _ (e.tokenizer.encode q) err hr).1
  · rw [htk] at hr
    dsimp only at hr ⊢
    rcases hm : (e.history.append_segment q (some (e.tokenizer.encode q))).2 with merr | u
    · rfl
    · rw [hm] at hr
      dsimp only at hr ⊢
      exact (stepTail_err _ (e.tokenizer.encode q) err hr).1

theorem step_turn_ok (e : TextEnvironment) (q : PyVal) (r : StepResult)
    (hr : (e.step q).2 = Except.ok r) :
    (e.step q).1.turn = e.turn + 1 ∧
    (e.step q).1.max_turns = e.max_turns ∧
    r.done = decide (e.max_turns ≤ e.turn + 1) :=
  stepText_turn_ok e (pyStr q) r hr

theorem step_turn_err (e : TextEnvironment) (q : PyVal) (err : PyErr)
    (hr : (e.step q).2 = Except.error err) :
    (e.step q).1.turn = e.turn :=
  stepText_turn_err e (pyStr q) err hr

theorem stepSeq_turn (e e2 : TextEnvironment) (n : Nat) (hs : StepSeq e n e2) :
    e2.turn = e.turn + n ∧ e2.max_turns = e.max_turns := by
  induction hs with
  | nil => simp
  | cons n em q e3 r hs hstep ih =>
    have h1 : (em.step q).2 = Except.ok r := by rw [hstep]
    have h2 : (em.step q).1 = e3 := by rw [hstep]
    have h3 := step_turn_ok em q r h1
    rw [h2] at h3
    refine ⟨?_, ?_⟩
    · rw [h3.1, ih.1]
      omega
    · rw [h3.2.1, ih.2]


theorem setRangeAux_length (m : List Int) (i a b : Nat) (v : Int) :
    (setRangeAux m i a b v).length = m.length := by
  induction m generalizing i with
  | nil => rfl
  | cons x xs ih => simp [setRangeAux, ih]

theorem setRangeAux_get (m : List Int) (i a b : Nat) (v : Int) (j : Nat) :
    (setRangeAux m i a b v).get? j =
      (m.get? j).map (fun x => if a ≤ i + j ∧ i + j < b then v else x) := by
  induction m generalizing i j with
  | nil => rfl
  | cons x xs ih =>
    cases j with
    | zero => simp [setRangeAux]
    | succ j =>
      have := ih (i + 1) j
      simp only [setRangeAux, List.get?_cons_succ, this]
      have harith : i + 1 + j = i + (j + 1) := by omega
      rw [harith]

theorem applyMask_length (m : List Int) (spans : List (Nat × Nat)) (i : Nat) :
    (applyMask m spans i).length = m.length := by
  induction spans generalizing m i with
  | nil => rfl
  | cons sp rest ih => simp [applyMask, ih, setRange, setRangeAux_length]

theorem spanChain_coverIdx_none (spans : List (Nat × Nat)) (c j : Nat)
    (hch : SpanChain c spans) (hj : j < c) : coverIdx spans j = Option.none := by
  induction spans generalizing c with
  | nil => rfl
  | cons sp rest ih =>
    obtain ⟨h1, h2, h3⟩ := hch
    have hno : ¬(sp.1 ≤ j ∧ j < sp.2) := by omega
    simp [coverIdx, hno, ih sp.2 h3 (by omega)]

theorem applyMask_get_none (spans : List (Nat × Nat)) (m : List Int) (i c j : Nat)
    (hch : SpanChain c spans) (hk : coverIdx spans j = Option.none) :
    (applyMask m spans i).get? j = m.get? j := by
  induction spans generalizing m i c with
  | nil => rfl
  | cons sp rest ih =>
    obtain ⟨h1, h2, h3⟩ := hch
    simp only [coverIdx] at hk
    by_cases hcov : sp.1 ≤ j ∧ j < sp.2
    · rw [if_pos hcov] at hk
      simp at hk
    · rw [if_neg hcov] at hk
      have hrest : coverIdx rest j = Option.none := Option.map_eq_none'.mp hk
      simp only [applyMask]
      rw [ih _ (i + 1) sp.2 h3 hrest]
      rw [setRange, setRangeAux_get]
      cases m.get? j <;> simp [hcov]

theorem applyMask_get_cover (spans : List (Nat × Nat)) (m : List Int) (i c j k : Nat)
    (hch : SpanChain c spans) (hk : coverIdx spans j = some k) :
    (applyMask m spans i).get? j =
      (m.get? j).map (fun _ => if (i + k) % 2 = 0 then (1 : Int) else 2) := by
  induction spans generalizing m i c k with
  | nil => simp [coverIdx] at hk
  | cons sp rest ih =>
    obtain ⟨h1, h2, h3⟩ := hch
    simp only [coverIdx] at hk
    by_cases hcov : sp.1 ≤ j ∧ j < sp.2
    · rw [if_pos hcov] at hk
      have hk0 : k = 0 := by
        have := hk
        simp at this
        omega
      subst hk0
      have hrest : coverIdx rest j = Option.none :=
        spanChain_coverIdx_none rest sp.2 j h3 (by omega)
      simp only [applyMask]
      rw [applyMask_get_none rest _ (i + 1) sp.2 j h3 hrest]
      rw [setRange, setRangeAux_get]
      cases m.get? j <;> simp [hcov.1, hcov.2]
    · rw [if_neg hcov] at hk
      obtain ⟨k2, hk2, hkk⟩ := Option.map_eq_some'.mp hk
      simp only [applyMask]
      rw [ih _ (i + 1) sp.2 k2 h3 hk2]
      rw [setRange, setRangeAux_get]
      have harith : i + 1 + k2 = i + k := by omega
      cases m.get? j <;> simp [hcov, harith]

theorem padObs_length (l : List Int) (hl : l.length ≤ obs_dim) : (padObs l).length = obs_dim := by
  unfold padObs
  split
  · simp
    omega
  · omega

theorem spanChain_append (spans : List (Nat × Nat)) (c a b : Nat)
    (hch : SpanChain c spans) (he : chainEnd c spans = a) (hab : a < b) :
    SpanChain c (spans ++ [(a, b)]) ∧ chainEnd c (spans ++ [(a, b)]) = b := by
  induction spans generalizing c with
  | nil =>
    simp only [chainEnd] at he
    subst he
    exact ⟨⟨rfl, hab, trivial⟩, rfl⟩
  | cons sp rest ih =>
    obtain ⟨h1, h2, h3⟩ := hch
    simp only [chainEnd] at he
    have := ih sp.2 h3 he
    exact ⟨⟨h1, h2, this.1⟩, this.2⟩

theorem reachable_invariant (h : TextHistory) (hr : ReachableHistory h) :
    (∃ tk, h.tokens = some tk ∧ tk.length ≤ obs_dim) ∧
    SpanChain 0 h.text_spans ∧ chainEnd 0 h.text_spans = h.text.length := by
  induction hr with
  | base => exact ⟨⟨[], rfl, by norm_num⟩, trivial, rfl⟩
  | app t ts hr2 hok ih =>
    obtain ⟨⟨tk, htk, hlen⟩, hch, hend⟩ := ih
    obtain ⟨ht, hts, tk2, htk2, heq⟩ := append_segment_ok_inv _ _ t ts hok
    subst heq
    refine ⟨⟨truncatedCat tk2 ts, rfl, truncatedCat_length_le tk2 ts⟩, ?_, ?_⟩
    · exact (spanChain_append _ 0 _ _ hch hend
        (by rw [String.length_append]; omega)).1
    · exact (spanChain_append _ 0 _ _ hch hend
        (by rw [String.length_append]; omega)).2

theorem append_ok_pair (h : TextHistory) (t : String) (ts : Option (List Int))
    (hok : (h.append_segment t ts).2 = Except.ok ()) :
    h.append_segment t ts = ((h.append_segment t ts).1, Except.ok ()) := by
  rw [← hok]

theorem append_ok_spans_len (h : TextHistory) (t : String) (ts : List Int)
    (hok : (h.append_segment t (some ts)).2 = Except.ok ()) :
    ((h.append_segment t (some ts)).1).text_spans.length = h.text_spans.length + 1 := by
  obtain ⟨_, _, tk, _, heq⟩ :=
    append_segment_ok_inv h ((h.append_segment t (some ts)).1) t ts
      (append_ok_pair h t (some ts) hok)
  rw [heq]
  simp

theorem stepText_ok_spans (e : TextEnvironment) (q : String) (r : StepResult) (tk : List Int)
    (htk : e.history.tokens = some tk) (hr : (e.stepText q).2 = Except.ok r) :
    (e.stepText q).1.history.text_spans.length = e.history.text_spans.length + 2 := by
  unfold TextEnvironment.stepText at hr ⊢
  rw [htk] at hr ⊢
  dsimp only at hr ⊢
  rcases hm : (e.history.append_segment q (some (e.tokenizer.encode q))).2 with err | u
  · rw [hm] at hr
    simp at hr
  · rw [hm] at hr
    dsimp only at hr ⊢
    obtain ⟨_, _, _, hspans, rtk, hgok⟩ := stepTail_ok _ (e.tokenizer.encode q) r hr
    rw [hspans]
    obtain ⟨qt2, hqt2, hg2, hist2, happ2ok⟩ := generate_ok_history _ rtk hgok
    rw [hist2]
    have h1 : ((e.history.append_segment q (some (e.tokenizer.encode q))).1).text_spans.length =
        e.history.text_spans.length + 1 := by
      cases u
      exact append_ok_spans_len e.history q (e.tokenizer.encode q) hm
    have h2 := append_ok_spans_len _ _ rtk happ2ok
    dsimp only at h2 ⊢
    rw [h2, h1]

theorem step_ok_spans (e : TextEnvironment) (q : PyVal) (r : StepResult) (tk : List Int)
    (htk : e.history.tokens = some tk) (hr : (e.step q).2 = Except.ok r) :
    (e.step q).1.history.text_spans.length = e.history.text_spans.length + 2 :=
  stepText_ok_spans e (pyStr q) r tk htk hr

/-- C1: worked example.  With `W = 8` and `maxTurns = 3`, `reset()` returns an
all-zero observation and mask; one `step("hi")` with the stub tokenizer
(`"hi" ↦ [1, 2]`) and a stub generator returning `[3, 4, 5]` for any input
yields history tokens `[1, 2, 3, 4, 5]`, observation `[1, 2, 3, 4, 5, 0, 0, 0]`,
mask `[1, 1, 2, 2, 2, 0, 0, 0]`, `turn = 1` and `done = false`. -/
theorem claim_C1_worked_example :
    (envA.reset).2 = (List.replicate 8 0, List.replicate 8 0) ∧
    ((envA.reset).1.step (PyVal.str "hi")).1.history.tokens = some [1, 2, 3, 4, 5] ∧
    ((envA.reset).1.step (PyVal.str "hi")).2 = Except.ok resA ∧
    ((envA.reset).1.step (PyVal.str "hi")).1.turn = 1 := by
  refine ⟨rfl, rfl, rfl, rfl⟩

/-- C2 counterexample: a null query is coercible after all.  `step(None)` on a
fresh environment coerces the input to the string `"None"`, appends it as the
query segment (mutating the history), completes the turn and succeeds — it
does not fail with an `InvalidInput` error before mutating state, contrary to
the claim's characterisation of null/undefined input. -/
theorem claim_C2_counterexample :
    (envB.step PyVal.none).2 =
      Except.ok { obs := [7, 7, 7, 7, 3, 4, 5, 0], reward := 0, done := false,
                  mask := [1, 1, 1, 1, 2, 2, 2, 0] } ∧
    (envB.step PyVal.none).1.history.text = "Noneaaa" ∧
    (envB.step PyVal.none).1.history ≠ envB.history := by
  refine ⟨rfl, rfl, by decide⟩

/-- C2 amended: every input in the value domain of `step` is coercible by
Python's `str()`; `step` always proceeds with the coerced text (a null query
coerces to the string `"None"` rather than failing), so the un-coercible case
never arises. -/
theorem claim_C2_amended (e : TextEnvironment) (v : PyVal) :
    e.step v = e.stepText (pyStr v) ∧ pyStr PyVal.none = "None" :=
  ⟨rfl, rfl⟩

/-- C3 counterexample: after `reset()` the history's `completed` (done) flag is
not `False` — it is left entirely unassigned (the constructor's empty-text
early return skips the `completed = False` assignment), so the claim's
`done == False` fails on the code. -/
theorem claim_C3_counterexample :
    (envB.reset).1.history.completed = Option.none ∧
    ¬ (envB.reset).1.history.completed = some false := by
  refine ⟨rfl, by decide⟩

/-- C3 amended: `reset()` discards the history and yields an environment with
`turn = 0` and a fresh empty history (empty text, no spans, empty token list),
returning the all-zero observation and all-zero mask of width `W`; repeated
calls are idempotent.  However the history's `completed`/done flag is left
uninitialised (absent) by `reset` rather than set to `False`; it is first
assigned during `step()`. -/
theorem claim_C3_amended (e : TextEnvironment) :
    (e.reset).1.turn = 0 ∧
    (e.reset).1.history = emptyHistory ∧
    emptyHistory.text = "" ∧
    emptyHistory.text_spans = [] ∧
    emptyHistory.tokens = some [] ∧
    (e.reset).1.history.completed = Option.none ∧
    (e.reset).2 = (List.replicate obs_dim 0, List.replicate obs_dim 0) ∧
    ((e.reset).1).reset = e.reset :=
  ⟨rfl, rfl, rfl, rfl, rfl, rfl, rfl, rfl⟩

/-- C5: `append_segment` with empty text or an empty token list fails with
`ValueError` (the source's `InvalidSegment`) and returns the history exactly
unchanged; with non-empty text and non-empty tokens (on any history whose
token attribute is a real list, as every constructed history's is) the append
succeeds. -/
theorem claim_C5_append_validation (h : TextHistory) (t : String) (ts tk : List Int)
    (htk : h.tokens = some tk) :
    ((t.length = 0 ∨ ts.length = 0) →
      h.append_segment t (some ts) = (h, Except.error PyErr.valueError)) ∧
    (t.length ≠ 0 → ts.length ≠ 0 → (h.append_segment t (some ts)).2 = Except.ok ()) := by
  constructor
  · exact fun hd => append_segment_empty h t ts hd
  · intro h1 h2
    rw [append_segment_ok_eq h t ts tk htk h1 h2]

/-- C5 witness: on the empty history, appending empty text is rejected with
`ValueError` leaving the history unchanged, and appending `"a"`/`[1]`
succeeds. -/
theorem claim_C5_witness :
    emptyHistory.append_segment "" (some [1]) = (emptyHistory, Except.error PyErr.valueError) ∧
    (emptyHistory.append_segment "a" (some [1])).2 = Except.ok () := by
  exact ⟨(claim_C5_append_validation emptyHistory "" [1] [] rfl).1 (Or.inl rfl),
         (claim_C5_append_validation emptyHistory "a" [1] [] rfl).2 (by decide) (by decide)⟩

/-- C6: a successful append stores exactly `truncatedCat tk ts`, whose length
never exceeds `W = obs_dim`; whenever the combined length exceeds `W`, exactly
the last `W` tokens of the concatenation are kept, in order (the oldest are
dropped).  Since every append obeys this bound, the token list of any history
built from successful appends is always at most `W` long. -/
theorem claim_C6_truncation (h : TextHistory) (t : String) (ts tk : List Int)
    (htk : h.tokens = some tk) (ht : t.length ≠ 0) (hts : ts.length ≠ 0) :
    ((h.append_segment t (some ts)).1).tokens = some (truncatedCat tk ts) ∧
    (truncatedCat tk ts).length ≤ obs_dim ∧
    (obs_dim < tk.length + ts.length →
      truncatedCat tk ts = (tk ++ ts).drop (tk.length + ts.length - obs_dim)) := by
  refine ⟨?_, truncatedCat_length_le tk ts, ?_⟩
  · rw [append_segment_ok_eq h t ts tk htk ht hts]
  · intro hgt
    unfold truncatedCat
    rw [if_pos (by rw [List.length_append]; omega), List.length_append]

/-- C6 witness: appending three tokens to a six-token history overflows the
window and keeps exactly the last eight tokens, `[2,…,9]`. -/
theorem claim_C6_witness :
    ((hW6.append_segment "abc" (some [7, 8, 9])).1).tokens =
      some (truncatedCat [1, 2, 3, 4, 5, 6] [7, 8, 9]) ∧
    (truncatedCat [1, 2, 3, 4, 5, 6] [7, 8, 9]).length ≤ obs_dim ∧
    truncatedCat [1, 2, 3, 4, 5, 6] [7, 8, 9] = [2, 3, 4, 5, 6, 7, 8, 9] := by
  have h := claim_C6_truncation hW6 "abc" [7, 8, 9] [1, 2, 3, 4, 5, 6] rfl
    (by decide) (by decide)
  exact ⟨h.1, h.2.1, by rw [h.2.2 (by decide)]; decide⟩

/-- C7: evaluation of the constructor at the failing input.  Constructing
`TextHistory("hi", [1, 2])` duplicates the first segment — the result is
`fullText = "hihi"`, span `(2, 4)` and tokens `[1, 2, 1, 2]` — whereas an
empty history followed by one `append_segment("hi", [1, 2])` gives
`fullText = "hi"`, span `(0, 2)` and tokens `[1, 2]`; the two states differ,
contradicting the claim.  Construction from empty text does initialise
`fullText`/`tokenIds` to empty sequences. -/
theorem claim_C7_constructor_duplicates :
    TextHistory.mk0 "hi" (some [1, 2]) =
      ({ text := "hihi", text_spans := [(2, 4)], tokens := some [1, 2, 1, 2],
         completed := some false }, Except.ok ()) ∧
    emptyHistory.append_segment "hi" (some [1, 2]) =
      ({ text := "hi", text_spans := [(0, 2)], tokens := some [1, 2],
         completed := Option.none }, Except.ok ()) ∧
    (TextHistory.mk0 "hi" (some [1, 2])).1 ≠
      (emptyHistory.append_segment "hi" (some [1, 2])).1 ∧
    TextHistory.mk0 "" Option.none =
      ({ text := "", text_spans := [], tokens := some [], completed := Option.none },
       Except.ok ()) := by
  refine ⟨rfl, rfl, by decide, rfl⟩

/-- C4: after `n` successful steps from a `Ready` environment (`turn = 0`), the
turn counter equals `n`, and one more successful step returns the done flag
`decide (maxTurns ≤ n + 1)`: `false` while fewer than `maxTurns` turns have
completed, `true` at exactly `maxTurns`, and still `true` for every further
successful step (the `Done` state is only left by `reset`). -/
theorem claim_C4_done_iff_max_turns (e e2 : TextEnvironment) (n : Nat) (q : PyVal)
    (r : StepResult) (h0 : e.turn = 0) (hs : StepSeq e n e2)
    (hstep : (e2.step q).2 = Except.ok r) :
    e2.turn = n ∧
    (e2.step q).1.turn = n + 1 ∧
    r.done = decide (e.max_turns ≤ n + 1) := by
  obtain ⟨hturn, hmax⟩ := stepSeq_turn e e2 n hs
  have hst := step_turn_ok e2 q r hstep
  have h1 : e2.turn = n := by omega
  refine ⟨h1, by rw [hst.1, h1], ?_⟩
  rw [hst.2.2, h1, hmax]

/-- C4 witness: on the worked-example environment (maxTurns = 3) the first
step completes with `turn = 1` and `done = false`. -/
theorem claim_C4_witness :
    envA.turn = 0 ∧
    (envA.step (PyVal.str "hi")).1.turn = 0 + 1 ∧
    resA.done = decide (envA.max_turns ≤ 0 + 1) := by
  have h := claim_C4_done_iff_max_turns envA envA 0 (PyVal.str "hi") resA rfl
    (StepSeq.nil envA) (by decide)
  exact ⟨rfl, h.2.1, h.2.2⟩

/-- C8: a failing `step` (any stage raising) aborts without incrementing the
turn counter; and when the query append succeeded and the generation service
is the stage that fails, the environment is left with exactly the
query-appended history — the query segment remains (one more span than
before) and no response segment was added. -/
theorem claim_C8_failure_partial_state (e : TextEnvironment) (q : PyVal) (err : PyErr)
    (tk : List Int)
    (htk : e.history.tokens = some tk)
    (hfail : (e.step q).2 = Except.error err) :
    (e.step q).1.turn = e.turn ∧
    (∀ h1, e.history.append_segment (pyStr q) (some (e.tokenizer.encode (pyStr q))) =
        (h1, Except.ok ()) →
      ∀ qt, h1.tokens = some qt → e.generator qt = Except.error err →
        (e.step q).1.history = h1 ∧
        h1.text_spans.length = e.history.text_spans.length + 1) := by
  refine ⟨step_turn_err e q err hfail, ?_⟩
  intro h1 happ qt hqt hgen
  constructor
  · show (e.stepText (pyStr q)).1.history = h1
    unfold TextEnvironment.stepText
    rw [htk]
    dsimp only
    rw [happ]
    dsimp only
    unfold TextEnvironment.stepTail TextEnvironment.generate
    dsimp only
    rw [hqt]
    dsimp only
    rw [hgen]
  · have hl : h1.text_spans =
        e.history.text_spans ++
          [(e.history.text.length,
            (e.history.text ++ pyStr q).length)] := by
      obtain ⟨_, _, tk2, _, heq⟩ :=
        append_segment_ok_inv e.history h1 (pyStr q) (e.tokenizer.encode (pyStr q)) happ
      rw [heq]
    rw [hl]
    simp

/-- C8 witness: with a generator that always fails, `step("hi")` leaves the
turn counter unchanged and the history holding exactly the appended query
segment. -/
theorem claim_C8_witness :
    (envF.step (PyVal.str "hi")).1.turn = envF.turn ∧
    (envF.step (PyVal.str "hi")).1.history = hF1 := by
  have h := claim_C8_failure_partial_state envF (PyVal.str "hi") PyErr.typeError [] rfl
    (by decide)
  exact ⟨h.1, (h.2 hF1 (by decide) [7, 7] rfl rfl).1⟩

/-- C10: `step` carries no guard on the `Done` state.  From any environment
with `turn ≥ maxTurns` (and a real token list), a successful `step` still
appends a query segment and a response segment (two more spans), still
increments `turn`, and still returns `done = true`. -/
theorem claim_C10_step_after_done (e : TextEnvironment) (q : PyVal) (r : StepResult)
    (tk : List Int)
    (htk : e.history.tokens = some tk) (hdone : e.max_turns ≤ e.turn)
    (hr : (e.step q).2 = Except.ok r) :
    (e.step q).1.turn = e.turn + 1 ∧
    r.done = true ∧
    (e.step q).1.history.text_spans.length = e.history.text_spans.length + 2 := by
  have hst := step_turn_ok e q r hr
  refine ⟨hst.1, ?_, step_ok_spans e q r tk htk hr⟩
  rw [hst.2.2]
  simp only [decide_eq_true_eq]
  omega

/-- C10 witness: an environment with `maxTurns = 0` is `Done` at `turn = 0`,
yet a step succeeds, increments the turn, adds two segments and reports
`done = true`. -/
theorem claim_C10_witness :
    (envD.step (PyVal.str "hi")).1.turn = envD.turn + 1 ∧
    resD.done = true ∧
    (envD.step (PyVal.str "hi")).1.history.text_spans.length =
      envD.history.text_spans.length + 2 := by
  exact claim_C10_step_after_done envD (PyVal.str "hi") resD [] rfl (by decide) (by decide)

/-- C9: for every history reachable by successful appends, `to_obs` returns an
observation of length exactly `W = obs_dim` and a mask of the same length;
each mask position covered by a recorded span carries 1 for an even span index
and 2 for an odd one, uncovered positions carry 0 (even when span offsets
extend beyond `W`, where they are clamped), and consequently every mask value
lies in {0, 1, 2}. -/
theorem claim_C9_observation_shape (h : TextHistory) (hr : ReachableHistory h) :
    (h.to_obs).1.length = obs_dim ∧
    (h.to_obs).2.length = obs_dim ∧
    (∀ j, j < obs_dim →
      (h.to_obs).2.get? j =
        some (match coverIdx h.text_spans j with
              | some k => if k % 2 = 0 then (1 : Int) else 2
              | Option.none => 0)) ∧
    (∀ v, v ∈ (h.to_obs).2 → v = 0 ∨ v = 1 ∨ v = 2) := by
  obtain ⟨⟨tk, htk, hlen⟩, hch, hend⟩ := reachable_invariant h hr
  have hobs : (h.to_obs).1.length = obs_dim := by
    show (padObs (h.tokens.getD [])).length = obs_dim
    rw [htk]
    exact padObs_length tk hlen
  have hmask : (h.to_obs).2.length = obs_dim := by
    show (applyMask (List.replicate (padObs (h.tokens.getD [])).length 0)
      h.text_spans 0).length = obs_dim
    rw [applyMask_length, List.length_replicate]
    exact hobs
  have hrep : ∀ j, j < obs_dim →
      (List.replicate (padObs (h.tokens.getD [])).length (0 : Int)).get? j = some 0 := by
    intro j hj
    have hL : (padObs (h.tokens.getD [])).length = obs_dim := hobs
    rw [hL]
    simp [List.get?_eq_getElem?, hj]
  have hget : ∀ j, j < obs_dim →
      (h.to_obs).2.get? j =
        some (match coverIdx h.text_spans j with
              | some k => if k % 2 = 0 then (1 : Int) else 2
              | Option.none => 0) := by
    intro j hj
    show (applyMask (List.replicate (padObs (h.tokens.getD [])).length 0)
      h.text_spans 0).get? j = _
    rcases hcov : coverIdx h.text_spans j with _ | k
    · rw [applyMask_get_none h.text_spans _ 0 0 j hch hcov, hrep j hj]
    · rw [applyMask_get_cover h.text_spans _ 0 0 j k hch hcov, hrep j hj]
      simp
  refine ⟨hobs, hmask, hget, ?_⟩
  intro v hv
  obtain ⟨j, hjget⟩ := List.mem_iff_get?.mp hv
  have hj : j < obs_dim := by
    by_contra hj2
    push_neg at hj2
    have : (h.to_obs).2.get? j = Option.none := by
      rw [List.get?_eq_none]
      omega
    rw [this] at hjget
    cases hjget
  have hval := hget j hj
  rw [hjget] at hval
  injection hval with hval2
  rcases hcov : coverIdx h.text_spans j with _ | k
  · rw [hcov] at hval2
    dsimp only at hval2
    exact Or.inl hval2
  · rw [hcov] at hval2
    dsimp only at hval2
    by_cases hk : k % 2 = 0
    · rw [if_pos hk] at hval2
      exact Or.inr (Or.inl hval2)
    · rw [if_neg hk] at hval2
      exact Or.inr (Or.inr hval2)

/-- C9 witness: the empty history is reachable and its observation and mask
both have length `W`. -/
theorem claim_C9_witness :
    (emptyHistory.to_obs).1.length = obs_dim ∧ (emptyHistory.to_obs).2.length = obs_dim := by
  have h := claim_C9_observation_shape emptyHistory ReachableHistory.base
  exact ⟨h.1, h.2.1⟩
